import Mathlib

/-!
Verification development for the Abi7Grid masonry layout engine.

The definitions below are a shallow embedding of the grid engine
(classes `abi7_grid_item` / `abi7_grid_custom`): JavaScript numbers
used as pixel coordinates and sizes are modelled as `Int`, array
indices as `Nat`, JavaScript arrays as `List`, and code that would
throw a `TypeError` (property access on `undefined`) or a string
exception is modelled with `Option` / explicit error results.
-/

namespace A7

/-- `config.space`: inter-item spacing in pixels (`cols`, `rows`). -/
structure SpaceCfg where
  cols : Int
  rows : Int
deriving DecidableEq

/-- `config.padding`: grid padding on the four sides. -/
structure PaddingCfg where
  top : Int
  left : Int
  right : Int
  bottom : Int
deriving DecidableEq

/-- A cached data record.  Only the layout hints the engine reads
(`abi7height`, `abi7aspectRatio`) are modelled; `none` stands for an
absent property or a non-number value. -/
structure Record where
  abi7height : Option Int := none
  abi7aspectRatio : Option Int := none
deriving DecidableEq

/-- The geometry object handed to `config.funcItemCalc`
(`{x, y, column, width}`; the `height` field passed by the source is
`undefined` at that point and is omitted). -/
structure ItemCalcArgs where
  x : Int
  y : Int
  column : Nat
  width : Int

/-- The configuration options the layout engine reads
(`abi7_grid_custom.defaults` merged with user options). -/
structure Config where
  space : SpaceCfg := ⟨5, 5⟩
  padding : PaddingCfg := ⟨0, 0, 0, 0⟩
  itemsMinWidth : Int := 150
  itemsMaxWidth : Int := 250
  itemsHeight : Option Int := none
  itemsAspectRatio : Option Int := none
  maxColumns : Int := 3
  itemsCount : Nat := 0
  dataBlockSize : Nat := 0
  funcItemCalc : Option (ItemCalcArgs → Record → Int) := none

/-- The sizing fields `initSizingParams` stores on the grid
(`self.left`, `self.column_count`, `self.item_width`,
`self.grid_width`, `self.calc_width`, `self.item_height`,
`self.itemsCount`, `self.dataBlockSize`). -/
structure Geometry where
  left : Int := 0
  column_count : Nat := 1
  item_width : Int := 0
  grid_width : Int := 0
  calc_width : Int := 0
  item_height : Option Int := none
  itemsCount : Nat := 0
  dataBlockSize : Nat := 0

/-- JavaScript `Math.round (a / b)` for integers with `b > 0`:
`round (a / b) = floor ((2 a + b) / (2 b))` (JS rounds halves toward
positive infinity). -/
def jsRound (a b : Int) : Int := Int.fdiv (2 * a + b) (2 * b)

/-- JavaScript truthiness of an optional number: `0` is falsy. -/
def truthy (o : Option Int) : Option Int :=
  match o with
  | some v => if v = 0 then none else some v
  | none => none

/-- The guard `(typeof v === 'number' && v > 0) ? v : false` applied to
an optional number. -/
def posFilter (o : Option Int) : Option Int :=
  match o with
  | some v => if 0 < v then some v else none
  | none => none

/-- The inner loop of `initSizingParams`
(`while (item_width < maxWidth) { calcW = (item_width+1)*cc + cols*(cc-1);
if (calcW >= width) break; item_width++ }`), written with an explicit
fuel that callers instantiate with the exact number of remaining
iterations `(maxW - iw).toNat`.  Returns the final
`(item_width, calc_width)`. -/
def growWidth (cols maxW width : Int) (cc : Nat) : Nat → Int → Int → Int × Int
  | 0, iw, calcW => (iw, calcW)
  | fuel + 1, iw, calcW =>
    if iw < maxW then
      let c := (iw + 1) * (cc : Int) + cols * ((cc : Int) - 1)
      if width ≤ c then (iw, c)
      else growWidth cols maxW width cc fuel (iw + 1) c
    else (iw, calcW)

/-- The outer loop of `initSizingParams`
(`while (column_count > 1) { calcW = minW*cc + cols*(cc-1);
if (calcW <= width) { item_width = minW; inner loop; break }
column_count-- }`).  Returns `(column_count, item_width, calc_width)`. -/
def sizingLoop (cols minW maxW width iw0 : Int) (calcW : Int) : Nat → Nat × Int × Int
  | 0 => (0, iw0, calcW)
  | 1 => (1, iw0, calcW)
  | n + 2 =>
    let cc := n + 2
    let c := minW * (cc : Int) + cols * ((cc : Int) - 1)
    if c ≤ width then
      let gw := growWidth cols maxW width cc ((maxW - minW).toNat) minW c
      (cc, gw.1, gw.2)
    else sizingLoop cols minW maxW width iw0 c (n + 1)

/-- `initSizingParams` (the Geometry Calculator): derives column count,
item width and centering offset from the container width and the
configuration.  `width_full` is `self.container.clientWidth`. -/
def initSizingParams (cfg : Config) (width_full : Int) : Geometry :=
  let width := width_full - (cfg.padding.left + cfg.padding.right)
  let iw0 := min width cfg.itemsMaxWidth
  let cc0 : Nat := if 0 < cfg.maxColumns then cfg.maxColumns.toNat else 16
  let r := sizingLoop cfg.space.cols cfg.itemsMinWidth cfg.itemsMaxWidth width iw0 0 cc0
  let cc := r.1
  let iw := r.2.1
  let item_aspectRatio := posFilter cfg.itemsAspectRatio
  let ih0 : Option Int :=
    match cfg.itemsHeight with
    | some h => if 0 < h then some h else none
    | none => none
  let ih : Option Int :=
    match item_aspectRatio with
    | some ar => some (jsRound iw ar)
    | none => ih0
  { left := max cfg.padding.left ((width_full - ((cfg.space.cols + iw) * (cc : Int) - cfg.space.cols)) / 2)
    column_count := cc
    item_width := iw
    grid_width := width_full
    calc_width := r.2.2
    item_height := ih
    itemsCount := if cfg.itemsCount ≠ 0 then cfg.itemsCount else max 20 (cc * 20)
    dataBlockSize := if cfg.dataBlockSize ≠ 0 then cfg.dataBlockSize else max 100 (cc * 40) }

/-- A Layout Entry (`self.storage.items[i]`):
`{left, top, height, bottom, column}` (the `ratio` field stored by
`loadData` is irrelevant to layout and omitted). -/
structure Entry where
  left : Int
  top : Int
  height : Int
  bottom : Int
  column : Nat
deriving DecidableEq

/-- The value returned by `findNextPos`: `{left, top, column}`. -/
structure Pos where
  left : Int
  top : Int
  column : Nat
deriving DecidableEq

/-- One step of the stable descending-by-`bottom` sort: insert `x`
before the first element whose `bottom` is not larger, so that an
earlier-input element stays in front of later equal ones. -/
def insertDesc (x : Entry) : List Entry → List Entry
  | [] => [x]
  | y :: ys => if y.bottom ≤ x.bottom then x :: y :: ys else y :: insertDesc x ys

/-- `arr.sort((a, b) => b.bottom - a.bottom)`: ECMAScript requires
`Array.prototype.sort` to be stable, and a stable sort for a total
preorder is unique, so the JS sort is embedded as the stable insertion
sort ordering entries by decreasing `bottom`. -/
def sortDesc : List Entry → List Entry
  | [] => []
  | x :: xs => insertDesc x (sortDesc xs)

/-- Specification-side helper: the minimal-`bottom` element of a list,
preferring the later one when several are minimal (this is the element
a stable descending sort leaves at the end). -/
def lastMin : List Entry → Option Entry
  | [] => none
  | x :: xs =>
    match lastMin xs with
    | none => some x
    | some m => some (if m.bottom ≤ x.bottom then m else x)

/-- The backward scan of `findNextPos`
(`for (i = index-1; i >= 0; i--) { if (!arr.find(a => a.left === store.left))
arr.push(store); if (arr.length >= column_count) break }`): the input
list is the already-resolved entries in backward order, `acc` is the
collected `arr`. -/
def scanCols (cc : Nat) (acc : List Entry) : List Entry → List Entry
  | [] => acc
  | e :: rest =>
    let acc' := if acc.any (fun a => a.left == e.left) then acc else acc ++ [e]
    if cc ≤ acc'.length then acc' else scanCols cc acc' rest

/-- Left offset of column `i` in the first row:
`i * (space.cols + item_width) + self.left`. -/
def colLeft (cfg : Config) (geo : Geometry) (i : Nat) : Int :=
  (i : Int) * (cfg.space.cols + geo.item_width) + geo.left

/-- `findNextPos` (the Position Solver): computes `{left, top, column}`
for the item at linear index `index` (`self.cursor_pos`) from the
already-resolved entries `items`.  `none` models the `TypeError` the
source would throw when it reads a property of `undefined` (scan over
a region with no resolved entry). -/
def findNextPos (cfg : Config) (geo : Geometry) (items : List Entry) (index : Nat) : Option Pos :=
  if index < geo.column_count then
    some { left := colLeft cfg geo index
           top := (cfg.padding.top - cfg.space.rows) + cfg.space.rows
           column := index }
  else if 1 < geo.column_count then
    match (sortDesc (scanCols geo.column_count [] ((items.take index).reverse))).getLast? with
    | some e => some { left := e.left, top := e.bottom + cfg.space.rows, column := e.column }
    | none => none
  else
    if 0 < index then
      match items.get? (index - 1) with
      | some tmp => some { left := tmp.left, top := tmp.bottom + cfg.space.rows, column := 0 }
      | none => none
    else
      some { left := 0, top := 0 + cfg.space.rows, column := 0 }

/-- The height cascade of `recalcStorageItems` (lines choosing
`self.item_height`, then the aspect-ratio hint, then the height hint,
then `config.funcItemCalc`); `none` models the `undefined` height (and
hence `NaN` bottom) produced when no height source applies. -/
def resolveHeight (cfg : Config) (geo : Geometry) (p : Pos) (r : Record) : Option Int :=
  match truthy geo.item_height with
  | some h => some h
  | none =>
    match posFilter r.abi7aspectRatio with
    | some rt => some (jsRound geo.item_width rt)
    | none =>
      match posFilter r.abi7height with
      | some h => some h
      | none =>
        match cfg.funcItemCalc with
        | some f => some (f { x := p.left, y := p.top, column := p.column, width := geo.item_width } r)
        | none => none

/-- The loop of `recalcStorageItems` after `self.storage.items = []`:
builds the first `n` Layout Entries from the cache, each step running
`findNextPos` on the entries built so far (`cursor_pos = i`), resolving
the height and pushing `{left, top, height, bottom := top + height,
column}`. -/
def recalcStorageBuild (cfg : Config) (geo : Geometry) (cache : List Record) : Nat → Option (List Entry)
  | 0 => some []
  | n + 1 =>
    match recalcStorageBuild cfg geo cache n with
    | none => none
    | some st =>
      match cache.get? n with
      | none => none
      | some r =>
        match findNextPos cfg geo st n with
        | none => none
        | some p =>
          match resolveHeight cfg geo p r with
          | none => none
          | some h =>
            some (st ++ [{ left := p.left, top := p.top, height := h,
                           bottom := p.top + h, column := p.column }])

/-- `recalcStorageItems(count)`: `count || self.storage.cache.length`
(0 models a falsy `count`), then the rebuild loop. -/
def recalcStorageItems (cfg : Config) (geo : Geometry) (cache : List Record) (count : Nat) : Option (List Entry) :=
  recalcStorageBuild cfg geo cache (if count = 0 then cache.length else count)

/-- Grid state machine values (`ABI7_GRID_STATE_*`). -/
inductive GState where
  | normal
  | build
  | disabled
  | hidden
deriving DecidableEq

/-- The grid instance state the modelled operations read and write:
state-machine flags, the record cache (`storage.cache`), the Layout
Entries (`storage.items`), the bound index of every pooled Item View
(`items[*].index`; `-1` means unbound), and the paging flags. -/
structure GridSt where
  gridState : GState := .build
  ready : Bool := false
  visible : Bool := false
  inScroll : Bool := false
  cache : List Record := []
  items : List Entry := []
  views : List Int := []
  eof_data : Bool := false
deriving DecidableEq

/-- `gridState === ABI7_GRID_STATE_NORMAL`. -/
def isNormalState : GState → Bool
  | .normal => true
  | _ => false

/-- `stateIsNormal(options)` with the three check flags made explicit
(`checkVisible`, `checkScroll`, `checkReady`; all default to true in
the source). -/
def stateIsNormalOpts (checkVisible checkScroll checkReady : Bool) (st : GridSt) : Bool :=
  isNormalState st.gridState
    && ((!checkReady) || st.ready)
    && ((!checkVisible) || st.visible)
    && ((!checkScroll) || !st.inScroll)

/-- `stateIsNormal()` with default options. -/
def stateIsNormal (st : GridSt) : Bool := stateIsNormalOpts true true true st

/-- The loop of `recalcItems` on a hole-free Layout Entry array,
with an explicit fuel instantiated with the exact remaining iteration
count: for each `i` from the start position, recompute the position
with `findNextPos` (which scans the entries already rewritten) and
update the entry in place keeping its height
(`obj.left/top/bottom/column` assignments).  `none` models a thrown
`TypeError` inside `findNextPos`. -/
def recalcFromAux (cfg : Config) (geo : Geometry) : Nat → List Entry → Nat → Option (List Entry)
  | 0, st, _ => some st
  | fuel + 1, st, i =>
    if h : i < st.length then
      match findNextPos cfg geo st i with
      | none => none
      | some nxt =>
        let obj := st[i]
        recalcFromAux cfg geo fuel
          (st.set i { left := nxt.left, top := nxt.top, height := obj.height,
                      bottom := nxt.top + obj.height, column := nxt.column }) (i + 1)
    else some st

/-- The `recalcItems` rewrite loop from position `i` to the end of the
(hole-free) entry array. -/
def recalcFrom (cfg : Config) (geo : Geometry) (st : List Entry) (i : Nat) : Option (List Entry) :=
  recalcFromAux cfg geo (st.length - i) st i

/-- `abi7_grid_item.remove()`: guard on `stateIsNormal`, decrement the
bound index of every view bound to a larger index (`self`, the view
bound to `k`, becomes unbound `-1`), splice the entry and the record at
`k`, recompute layout from `k` forward, and emit `onItemDelete` with
the splice result (the one-element array of removed records) and the
former index.  The DOM moves, animation timing and the build-state
bracketing are elided; the second component is the emitted
notification (`none` when nothing is emitted). -/
def removeModel (cfg : Config) (geo : Geometry) (st : GridSt) (k : Nat) :
    GridSt × Option (List Record × Nat) :=
  if !stateIsNormal st then (st, none)
  else
    let views' := st.views.map (fun v =>
      if (k : Int) < v then v - 1 else if v = (k : Int) then -1 else v)
    let removed := (st.cache.drop k).take 1
    let cache' := st.cache.eraseIdx k
    let items0 := st.items.eraseIdx k
    match recalcFrom cfg geo items0 k with
    | some items' =>
      ({ st with cache := cache', items := items', views := views', gridState := .normal },
       some (removed, k))
    | none =>
      ({ st with cache := cache', items := items0, views := views', gridState := .build }, none)

/-- `refresh(fdone)`, reduced to its layout effect: guard on
`stateIsNormal`, rerun `initSizingParams` on the (unchanged) container
width, rebuild `storage.items` with
`recalcStorageItems(self.storage.items.length)`, and return to
`Normal` when the rebuild completes (scroll anchoring and the per-view
repositioning read the rebuilt entries and are elided). -/
def refreshModel (cfg : Config) (width_full : Int) (st : GridSt) : GridSt :=
  if !stateIsNormal st then st
  else
    let geo := initSizingParams cfg width_full
    match recalcStorageItems cfg geo st.cache st.items.length with
    | some l => { st with items := l, gridState := .normal }
    | none => { st with gridState := .build }

/-- The paging step of `loadData` (the lines choosing between serving
from the cache and fetching): given the normalized `start`/`count`, a
fetch is issued only when `start + count` exceeds the cached length and
`eof_data` is unset; the data source is asked for `dataBlockSize`
records and answers `ds`; then `eof_data := ds.length < dataBlockSize`
and the page is appended to the cache.  Returns the new state and
whether a fetch was issued. -/
def loadDataFetchStep (st : GridSt) (dataBlockSize : Nat) (start count : Nat) (ds : List Record) :
    GridSt × Bool :=
  if start + count ≤ st.cache.length || st.eof_data then (st, false)
  else ({ st with eof_data := decide (ds.length < dataBlockSize), cache := st.cache ++ ds }, true)

/-- A JavaScript argument value, as far as the public operations
inspect it: an array, a plain object (a record), `undefined`, a number
or a string. -/
inductive JArg where
  | jarr (l : List Record)
  | jobj (r : Record)
  | jundef
  | jnum (n : Int)
  | jstr (s : String)
deriving DecidableEq

/-- `typeof arg === 'object'` (arrays are objects in JS). -/
def jtypeofObject : JArg → Bool
  | .jarr _ => true
  | .jobj _ => true
  | _ => false

/-- Result of the public `data` operation: `undefined`, the cache, or a
thrown exception. -/
inductive DataRes where
  | retUndefined
  | retValue (l : List Record)
  | threw (msg : String)
deriving DecidableEq

/-- `initProps()`, reduced to the modelled fields: resets the storage
and the paging/state flags (`gridState = BUILD`, empty cache and
entries, `ready = false`, `eof_data = false`, `inScroll = false`). -/
def initPropsReset (st : GridSt) : GridSt :=
  { st with gridState := .build, ready := false, inScroll := false,
            cache := [], items := [], eof_data := false }

/-- The Array branch of the public `data` operation, compressed to its
settled completion: `initProps()`, `setData(data)` (which stores the
given array and sets `eof_data`), `recalcStorageItems(null, ...)`, and
`initLoadData` finishing with `state(NORMAL)` and `ready = true` (the
asynchronous item loading between those points is elided). -/
def applyDataLoad (cfg : Config) (geo : Geometry) (st : GridSt) (l : List Record) : GridSt :=
  let st1 := initPropsReset st
  let st2 := { st1 with cache := l, eof_data := true }
  match recalcStorageItems cfg geo l 0 with
  | some its => { st2 with items := its, gridState := .normal, ready := true }
  | none => { st2 with gridState := .build }

/-- The public `data(data, fdone)` operation: guard on `stateIsNormal`
(returning `undefined`), then dispatch on the argument: an array loads
it, `undefined` returns the current cache (`return self.storage.cache`),
anything else throws `'Unexpected data format'`. -/
def dataModel (cfg : Config) (geo : Geometry) (st : GridSt) (arg : JArg) : GridSt × DataRes :=
  if !stateIsNormal st then (st, .retUndefined)
  else
    match arg with
    | .jarr l => (applyDataLoad cfg geo st l, .retUndefined)
    | .jundef => (st, .retValue st.cache)
    | _ => (st, .threw "Unexpected data format")

/-- `itemInsert(data, fdone)`: guard on `stateIsNormal` (returning
`undefined`), throw `'Data parameter must be an object'` when
`typeof data !== 'object'`, otherwise unshift the record onto the cache
and clear `storage.items` (the subsequent `loadData` rebuild is
elided).  The second component is the thrown message, `none` when
nothing is thrown; an array argument passes the `typeof` test and is
stored as a record without layout hints. -/
def itemInsertModel (st : GridSt) (arg : JArg) : GridSt × Option String :=
  if !stateIsNormal st then (st, none)
  else if !jtypeofObject arg then (st, some "Data parameter must be an object")
  else
    let r : Record := match arg with
      | .jobj r => r
      | _ => {}
    ({ st with cache := r :: st.cache, items := [], gridState := .build }, none)

/-! ### Sparse-array variant of `recalcItems`

JavaScript arrays can have holes: `loadData` assigns
`storage.items[cursor_pos] = {...}` at an arbitrary position, so
`storage.items` may contain indices below its `length` with no entry.
The following variant of the recompute loop keeps those holes
(`Option Entry`), which is exactly the situation the
`if (obj === undefined) return;` branch of `recalcItems` is about. -/

/-- The backward scan over a possibly sparse entry array: reading
`store.left` on a hole throws (`none`). -/
def scanColsH (cc : Nat) (acc : List Entry) : List (Option Entry) → Option (List Entry)
  | [] => some acc
  | none :: _ => none
  | some e :: rest =>
    let acc' := if acc.any (fun a => a.left == e.left) then acc else acc ++ [e]
    if cc ≤ acc'.length then some acc' else scanColsH cc acc' rest

/-- `findNextPos` over a possibly sparse entry array. -/
def findNextPosH (cfg : Config) (geo : Geometry) (items : List (Option Entry)) (index : Nat) :
    Option Pos :=
  if index < geo.column_count then
    some { left := colLeft cfg geo index
           top := (cfg.padding.top - cfg.space.rows) + cfg.space.rows
           column := index }
  else if 1 < geo.column_count then
    match scanColsH geo.column_count [] ((items.take index).reverse) with
    | none => none
    | some arr =>
      match (sortDesc arr).getLast? with
      | some e => some { left := e.left, top := e.bottom + cfg.space.rows, column := e.column }
      | none => none
  else
    if 0 < index then
      match items.get? (index - 1) with
      | some (some tmp) => some { left := tmp.left, top := tmp.bottom + cfg.space.rows, column := 0 }
      | _ => none
    else
      some { left := 0, top := 0 + cfg.space.rows, column := 0 }

/-- How one call of `recalcItems` exits. -/
inductive RecalcOutcome where
  | completed
  | earlyReturn
  | threw
  | skipped
deriving DecidableEq

/-- The `recalcItems` loop over a possibly sparse entry array, with the
grid state it leaves behind: `setBuildState(true)` precedes the loop,
so while iterating the state is `BUILD`; reaching the end runs
`func_done` (`setBuildState(false)`, i.e. `NORMAL`); the
`if (obj === undefined) return;` branch exits while the state is still
`BUILD`, as does a thrown `TypeError`. -/
def recalcItemsHAux (cfg : Config) (geo : Geometry) :
    Nat → List (Option Entry) → Nat → List (Option Entry) × GState × RecalcOutcome
  | 0, st, _ => (st, .normal, .completed)
  | fuel + 1, st, i =>
    if h : i < st.length then
      match findNextPosH cfg geo st i with
      | none => (st, .build, .threw)
      | some nxt =>
        match st[i] with
        | none => (st, .build, .earlyReturn)
        | some obj =>
          recalcItemsHAux cfg geo fuel
            (st.set i (some { left := nxt.left, top := nxt.top, height := obj.height,
                              bottom := nxt.top + obj.height, column := nxt.column })) (i + 1)
    else (st, .normal, .completed)

/-- `recalcItems(pos, options, fdone)` on a possibly sparse entry
array: the `stateIsNormal` guard (exit without entering `BUILD`), then
the rewrite loop; returns the entry array, the grid state at exit and
which exit was taken. -/
def recalcItemsH (cfg : Config) (geo : Geometry) (st : GridSt) (hitems : List (Option Entry))
    (pos : Nat) : List (Option Entry) × GState × RecalcOutcome :=
  if !stateIsNormal st then (hitems, st.gridState, .skipped)
  else recalcItemsHAux cfg geo (hitems.length - pos) hitems pos

/-! ### Reference semantics of `setData` / `data()` / `remove`

`setData` runs `self.storage.cache = data` — the caller's array object
itself, no copy — and the `undefined` branch of `data()` runs
`return self.storage.cache` — the same array object.  `remove` mutates
it in place with `splice`.  To state this aliasing, arrays are given
explicit references into a heap. -/

/-- A reference to an array object. -/
abbrev ArrRef := Nat

/-- The heap of array objects: contents per reference. -/
abbrev Heap := ArrRef → List Record

/-- In-place mutation of the array behind `r`. -/
def heapUpdate (h : Heap) (r : ArrRef) (f : List Record → List Record) : Heap :=
  fun q => if q = r then f (h q) else h q

/-- The reference-level grid state: which array object
`self.storage.cache` currently is. -/
structure RefGrid where
  cacheRef : ArrRef

/-- `setData(data)`: `self.storage.cache = data` — the grid now aliases
the caller's array (`storage.items` is also cleared, which has no
reference content). -/
def setDataRef (st : RefGrid) (r : ArrRef) : RefGrid := { st with cacheRef := r }

/-- The query branch of `data()` (`typeof data === 'undefined'`):
`return self.storage.cache` — the internal array reference itself. -/
def dataQueryRef (st : RefGrid) : ArrRef := st.cacheRef

/-- The cache mutation performed by `remove()`:
`grid.storage.cache.splice(index, 1)` — an in-place splice of the
aliased array. -/
def removeSpliceRef (h : Heap) (st : RefGrid) (k : Nat) : Heap :=
  heapUpdate h st.cacheRef (fun l => l.eraseIdx k)

/-! ## Concrete inputs used by the claim theorems -/

/-- A resolved first-row entry in column 0. -/
def entA : Entry := { left := 0, top := 0, height := 10, bottom := 10, column := 0 }

/-- A resolved first-row entry in column 1 with the same bottom as
`entA`. -/
def entB : Entry := { left := 100, top := 0, height := 10, bottom := 10, column := 1 }

/-- A two-column geometry. -/
def geoTwo : Geometry := { column_count := 2, item_width := 100 }

/-- A configuration with zero column spacing and row spacing 5. -/
def cfgZero : Config := { space := ⟨0, 5⟩ }

/-- A grid in the settled Normal state (ready, visible, not
scrolling). -/
def stNormal : GridSt :=
  { gridState := .normal, ready := true, visible := true, inScroll := false }

/-! ## C1 -/

/-- Claim C1: the `LayoutInconsistency` early return of `recalcItems`
(`if (obj === undefined) return;`) does NOT return the state machine to
`Normal` or `Disabled`: on a sparse entry array `[entry, hole]`,
`recalcItems(1)` run on a normal, ready, visible grid exits through the
early-return branch with the grid state still `Building`.  This
contradicts the claim (and the specification sentence that every
mutating path must reach `Normal` or `Disabled` on all exit branches),
so the code is wrong on this path: the grid is left stuck in `Building`
and every subsequent state-guarded operation becomes a no-op. -/
theorem recalcItems_earlyReturn_leaves_build :
    (recalcItemsH {} geoTwo stNormal [some entA, none] 1).2.1 = GState.build ∧
    (recalcItemsH {} geoTwo stNormal [some entA, none] 1).2.2 = RecalcOutcome.earlyReturn ∧
    GState.build ≠ GState.normal ∧ GState.build ≠ GState.disabled := by
  refine ⟨rfl, rfl, by decide, by decide⟩

/-! ## C5 -/

/-- The configuration of the C5 scenario as stated: container padding
0, `minWidth=150`, `maxWidth=250`, column spacing 10, everything else
at its documented default — in particular `maxColumns = 3`. -/
def cfgC5 : Config := { space := ⟨10, 5⟩ }

/-- The C5 scenario with the column cap raised to 4. -/
def cfgC5cap4 : Config := { space := ⟨10, 5⟩, maxColumns := 4 }

/-- Counterexample to claim C5: with the stated configuration and the
documented default column cap `maxColumns = 3`, the Geometry Calculator
yields `columnCount = 3` and `itemWidth = 250`, not `(4, 242)`. -/
theorem initSizingParams_default_cap_not_4_242 :
    (initSizingParams cfgC5 1000).column_count = 3 ∧
    (initSizingParams cfgC5 1000).item_width = 250 ∧
    ¬ ((initSizingParams cfgC5 1000).column_count = 4 ∧
       (initSizingParams cfgC5 1000).item_width = 242) := by
  refine ⟨by decide, by decide, by decide⟩

/-- Claim C5 as amended: with container width 1000, padding 0,
`minWidth=150`, `maxWidth=250`, column spacing 10 and a column cap of
4, the Geometry Calculator yields `columnCount = 4` and
`itemWidth = 242`. -/
theorem initSizingParams_cap4_yields_4_242 :
    (initSizingParams cfgC5cap4 1000).column_count = 4 ∧
    (initSizingParams cfgC5cap4 1000).item_width = 242 := by
  refine ⟨by decide, by decide⟩

/-! ## C8 -/

/-- Claim C8: in the paging step of `loadData`, a fetch is issued
exactly when the needed range `start + count` extends beyond the cached
length and `eof_data` is unset; when a fetch is issued, the end-of-data
flag is set if and only if the returned page has fewer records than the
requested `dataBlockSize`, and the page is appended to the cache;
otherwise the flag and cache are untouched. -/
theorem loadData_fetch_iff_and_eof (st : GridSt) (dbs start count : Nat) (ds : List Record) :
    ((loadDataFetchStep st dbs start count ds).2
        = (decide (st.cache.length < start + count) && !st.eof_data)) ∧
    ((loadDataFetchStep st dbs start count ds).1.eof_data
        = if st.cache.length < start + count ∧ st.eof_data = false
          then decide (ds.length < dbs) else st.eof_data) ∧
    ((loadDataFetchStep st dbs start count ds).1.cache
        = if st.cache.length < start + count ∧ st.eof_data = false
          then st.cache ++ ds else st.cache) := by
  unfold loadDataFetchStep
  by_cases h : start + count ≤ st.cache.length
  · simp [h, Nat.not_lt.mpr h]
  · cases he : st.eof_data <;>
      simp [h, he, Nat.lt_of_not_le h]

/-! ## C9 -/

/-- Claim C9: `setData` stores the caller's array by reference (no
copy), the `undefined` branch of `data()` returns that same reference,
a later `remove` splices the very array the caller passed in, and any
mutation the caller performs through the returned reference is a
mutation of the grid's record cache. -/
theorem setData_and_dataQuery_alias_callers_array (h : Heap) (st : RefGrid) (r : ArrRef)
    (k : Nat) (g : List Record → List Record) :
    dataQueryRef (setDataRef st r) = r ∧
    removeSpliceRef h (setDataRef st r) k r = (h r).eraseIdx k ∧
    heapUpdate h (dataQueryRef (setDataRef st r)) g (setDataRef st r).cacheRef = g (h r) := by
  refine ⟨rfl, ?_, ?_⟩ <;>
    simp [removeSpliceRef, heapUpdate, setDataRef, dataQueryRef]

/-! ## C10 -/

/-- Claim C10: whenever the grid state is not `Normal`, or the grid is
not visible, or a scroll is in progress, the public `data` operation
returns `undefined` and neither queries the cache nor performs a load
— the state is returned unchanged. -/
theorem data_guard_returns_undefined (cfg : Config) (geo : Geometry) (st : GridSt) (arg : JArg)
    (h : st.gridState ≠ GState.normal ∨ st.visible = false ∨ st.inScroll = true) :
    dataModel cfg geo st arg = (st, DataRes.retUndefined) := by
  have hsn : stateIsNormal st = false := by
    unfold stateIsNormal stateIsNormalOpts
    rcases h with h | h | h
    · cases hg : st.gridState <;> simp_all [isNormalState]
    · simp [h]
    · simp [h]
  unfold dataModel
  simp [hsn]

/-- A grid mid-rebuild (`Building`), otherwise ready and visible. -/
def stBuilding : GridSt :=
  { gridState := .build, ready := true, visible := true, inScroll := false,
    cache := [{ abi7height := some 30 }] }

/-- Witness for C10: querying the dataset during a Building phase
yields `undefined` instead of the records. -/
theorem data_guard_returns_undefined_witness :
    (stBuilding.gridState ≠ GState.normal ∨ stBuilding.visible = false ∨
      stBuilding.inScroll = true) ∧
    dataModel {} {} stBuilding JArg.jundef = (stBuilding, DataRes.retUndefined) :=
  ⟨Or.inl (by decide),
   data_guard_returns_undefined {} {} stBuilding JArg.jundef (Or.inl (by decide))⟩

/-! ## C7 -/

/-- Counterexample to claim C7: a wrong-typed argument does NOT result
in a console diagnostic and a no-op — the call throws.  `itemInsert`
with a number throws `'Data parameter must be an object'` and `data`
with a number throws `'Unexpected data format'`. -/
theorem wrong_type_throws_concrete :
    (itemInsertModel stNormal (JArg.jnum 5)).2 = some "Data parameter must be an object" ∧
    (dataModel {} {} stNormal (JArg.jnum 5)).2 = DataRes.threw "Unexpected data format" := by
  refine ⟨rfl, rfl⟩

/-- Claim C7 as amended: for every public operation invoked with an
argument of the wrong type or shape (`itemInsert` with a non-object,
`data` with a value that is neither an array nor `undefined`), the call
throws a string exception — rather than reporting a console diagnostic
— and leaves the record cache, the Layout Entries and the grid state
unchanged. -/
theorem wrong_type_throws_state_unchanged (cfg : Config) (geo : Geometry) (st : GridSt)
    (hn : stateIsNormal st = true) :
    (∀ arg, jtypeofObject arg = false →
        itemInsertModel st arg = (st, some "Data parameter must be an object")) ∧
    (∀ arg, (∀ l, arg ≠ JArg.jarr l) → arg ≠ JArg.jundef →
        dataModel cfg geo st arg = (st, DataRes.threw "Unexpected data format")) := by
  constructor
  · intro arg ha
    unfold itemInsertModel
    simp [hn, ha]
  · intro arg h1 h2
    unfold dataModel
    cases arg with
    | jarr l => exact absurd rfl (h1 l)
    | jundef => exact absurd rfl h2
    | jobj r => simp [hn]
    | jnum n => simp [hn]
    | jstr s => simp [hn]

/-- Witness for C7: on a normal grid, `itemInsert` of a number and
`data` of a string both throw, with the state unchanged. -/
theorem wrong_type_throws_state_unchanged_witness :
    stateIsNormal stNormal = true ∧
    itemInsertModel stNormal (JArg.jnum 7) = (stNormal, some "Data parameter must be an object") ∧
    dataModel {} {} stNormal (JArg.jstr "x") = (stNormal, DataRes.threw "Unexpected data format") :=
  ⟨rfl,
   (wrong_type_throws_state_unchanged {} {} stNormal rfl).1 (JArg.jnum 7) rfl,
   (wrong_type_throws_state_unchanged {} {} stNormal rfl).2 (JArg.jstr "x")
     (fun _ h => nomatch h) (fun h => nomatch h)⟩

/-! ## C2: the greedy choice of `findNextPos` -/

lemma mem_insertDesc {x a : Entry} {l : List Entry} :
    a ∈ insertDesc x l ↔ a = x ∨ a ∈ l := by
  induction l with
  | nil => simp [insertDesc]
  | cons y ys ih =>
    simp only [insertDesc]
    split
    · simp only [List.mem_cons]
    · simp only [List.mem_cons, ih]
      tauto

lemma insertDesc_ne_nil (x : Entry) (l : List Entry) : insertDesc x l ≠ [] := by
  cases l with
  | nil => simp [insertDesc]
  | cons y ys =>
    simp only [insertDesc]
    split <;> simp

lemma sorted_insertDesc {x : Entry} {l : List Entry}
    (h : l.Pairwise (fun a b => b.bottom ≤ a.bottom)) :
    (insertDesc x l).Pairwise (fun a b => b.bottom ≤ a.bottom) := by
  induction l with
  | nil => simp [insertDesc]
  | cons y ys ih =>
    rcases List.pairwise_cons.mp h with ⟨hy, hys⟩
    simp only [insertDesc]
    split
    · rename_i hc
      refine List.pairwise_cons.mpr ⟨?_, h⟩
      intro b hb
      rcases List.mem_cons.mp hb with rfl | hb
      · exact hc
      · exact le_trans (hy b hb) hc
    · rename_i hc
      push_neg at hc
      refine List.pairwise_cons.mpr ⟨?_, ih hys⟩
      intro b hb
      rcases mem_insertDesc.mp hb with rfl | hb
      · exact le_of_lt hc
      · exact hy b hb

lemma sorted_sortDesc (l : List Entry) :
    (sortDesc l).Pairwise (fun a b => b.bottom ≤ a.bottom) := by
  induction l with
  | nil => simp [sortDesc]
  | cons x xs ih => exact sorted_insertDesc ih

lemma mem_of_getLast? {α : Type} {l : List α} {a : α} (h : l.getLast? = some a) : a ∈ l := by
  rcases List.getLast?_eq_some_iff.mp h with ⟨ys, rfl⟩
  simp

lemma getLast?_insertDesc {x : Entry} {l : List Entry}
    (h : l.Pairwise (fun a b => b.bottom ≤ a.bottom)) :
    (insertDesc x l).getLast? =
      some (match l.getLast? with
            | none => x
            | some z => if z.bottom ≤ x.bottom then z else x) := by
  induction l with
  | nil => simp [insertDesc]
  | cons y ys ih =>
    rcases List.pairwise_cons.mp h with ⟨hy, hys⟩
    simp only [insertDesc]
    split
    · rename_i hc
      obtain ⟨z, hz⟩ : ∃ z, (y :: ys).getLast? = some z := by
        cases hz : (y :: ys).getLast? with
        | none => simp at hz
        | some z => exact ⟨z, rfl⟩
      have hzx : z.bottom ≤ x.bottom := by
        rcases List.mem_cons.mp (mem_of_getLast? hz) with rfl | hzy
        · exact hc
        · exact le_trans (hy z hzy) hc
      rw [List.getLast?_cons_cons, hz]
      show some z = some (if z.bottom ≤ x.bottom then z else x)
      rw [if_pos hzx]
    · rename_i hc
      push_neg at hc
      obtain ⟨b, bs, hbs⟩ : ∃ b bs, insertDesc x ys = b :: bs := by
        cases hbs : insertDesc x ys with
        | nil => exact absurd hbs (insertDesc_ne_nil x ys)
        | cons b bs => exact ⟨b, bs, rfl⟩
      rw [hbs, List.getLast?_cons_cons, ← hbs, ih hys]
      cases ys with
      | nil => simp [if_neg (not_le.mpr hc)]
      | cons c cs => rw [List.getLast?_cons_cons]

lemma getLast?_sortDesc (l : List Entry) : (sortDesc l).getLast? = lastMin l := by
  induction l with
  | nil => rfl
  | cons x xs ih =>
    simp only [sortDesc, lastMin]
    rw [getLast?_insertDesc (sorted_sortDesc xs), ih]
    cases lastMin xs <;> rfl

lemma lastMin_eq_none {l : List Entry} : lastMin l = none ↔ l = [] := by
  cases l with
  | nil => simp [lastMin]
  | cons x xs =>
    simp only [lastMin]
    cases lastMin xs <;> simp

lemma lastMin_spec : ∀ (l : List Entry) (e : Entry), lastMin l = some e →
    e ∈ l ∧ (∀ x ∈ l, e.bottom ≤ x.bottom) ∧
    ∃ l₁ l₂, l = l₁ ++ e :: l₂ ∧ ∀ x ∈ l₂, e.bottom < x.bottom := by
  intro l
  induction l with
  | nil => intro e h; simp [lastMin] at h
  | cons x xs ih =>
    intro e h
    simp only [lastMin] at h
    cases hm : lastMin xs with
    | none =>
      rw [hm] at h
      obtain rfl : x = e := by injection h
      have hxs : xs = [] := lastMin_eq_none.mp hm
      subst hxs
      exact ⟨by simp, by simp, [], [], rfl, by simp⟩
    | some m =>
      rw [hm] at h
      have h : (if m.bottom ≤ x.bottom then m else x) = e := by injection h
      obtain ⟨hmem, hmin, l₁, l₂, hdec, hstrict⟩ := ih m hm
      by_cases hc : m.bottom ≤ x.bottom
      · rw [if_pos hc] at h
        obtain rfl : m = e := h
        refine ⟨List.mem_cons_of_mem _ hmem, ?_, x :: l₁, l₂, by simp [hdec], hstrict⟩
        intro y hy
        rcases List.mem_cons.mp hy with rfl | hy
        · exact hc
        · exact hmin y hy
      · rw [if_neg hc] at h
        obtain rfl : x = e := h
        push_neg at hc
        refine ⟨List.mem_cons_self _ _, ?_, [], xs, rfl, ?_⟩
        · intro y hy
          rcases List.mem_cons.mp hy with rfl | hy
          · exact le_refl _
          · exact le_trans (le_of_lt hc) (hmin y hy)
        · intro y hy
          exact lt_of_lt_of_le hc (hmin y hy)

lemma scanCols_length (cc : Nat) : ∀ (l acc : List Entry),
    acc.length ≤ (scanCols cc acc l).length := by
  intro l
  induction l with
  | nil => intro acc; simp [scanCols]
  | cons y rest ih =>
    intro acc
    simp only [scanCols]
    cases h1 : acc.any (fun a => a.left == y.left) <;> simp only [h1, Bool.false_eq_true,
      if_false, if_true]
    · split
      · simp
      · calc acc.length ≤ (acc ++ [y]).length := by simp
          _ ≤ _ := ih (acc ++ [y])
    · split
      · exact le_refl _
      · exact ih acc

lemma scanCols_subset (cc : Nat) : ∀ (l acc : List Entry), ∀ e ∈ scanCols cc acc l,
    e ∈ acc ∨ e ∈ l := by
  intro l
  induction l with
  | nil => intro acc e he; simp only [scanCols] at he; exact Or.inl he
  | cons y rest ih =>
    intro acc e he
    simp only [scanCols] at he
    cases h1 : acc.any (fun a => a.left == y.left) <;> rw [h1] at he <;>
      simp only [Bool.false_eq_true, if_false, if_true] at he
    · by_cases h2 : cc ≤ (acc ++ [y]).length
      · rw [if_pos h2] at he
        rcases List.mem_append.mp he with he | he
        · exact Or.inl he
        · simp at he
          exact Or.inr (by simp [he])
      · rw [if_neg h2] at he
        rcases ih (acc ++ [y]) e he with he | he
        · rcases List.mem_append.mp he with he | he
          · exact Or.inl he
          · simp at he
            exact Or.inr (by simp [he])
        · exact Or.inr (List.mem_cons_of_mem _ he)
    · by_cases h2 : cc ≤ acc.length
      · rw [if_pos h2] at he
        exact Or.inl he
      · rw [if_neg h2] at he
        rcases ih acc e he with he | he
        · exact Or.inl he
        · exact Or.inr (List.mem_cons_of_mem _ he)

lemma scanCols_firstOcc (cc : Nat) : ∀ (l acc : List Entry) (e : Entry),
    e ∈ scanCols cc acc l → e ∉ acc →
    ∃ l₁ l₂, l = l₁ ++ e :: l₂ ∧ (∀ x ∈ l₁, x.left ≠ e.left) ∧ (∀ a ∈ acc, a.left ≠ e.left) := by
  intro l
  induction l with
  | nil =>
    intro acc e he hna
    simp only [scanCols] at he
    exact absurd he hna
  | cons y rest ih =>
    intro acc e he hna
    simp only [scanCols] at he
    cases h1 : acc.any (fun a => a.left == y.left) <;> rw [h1] at he <;>
      simp only [Bool.false_eq_true, if_false, if_true] at he
    · -- y was pushed: the running `arr` becomes `acc ++ [y]`
      have haccy : ∀ a ∈ acc, a.left ≠ y.left := by
        intro a ha
        have h0 := List.any_eq_false.mp h1 a ha
        simpa using h0
      by_cases hey : e = y
      · subst hey
        exact ⟨[], rest, rfl, by simp, haccy⟩
      · have hna' : e ∉ acc ++ [y] := by
          simp only [List.mem_append, List.mem_singleton]
          rintro (h | h)
          · exact hna h
          · exact hey h
        by_cases h2 : cc ≤ (acc ++ [y]).length
        · rw [if_pos h2] at he
          exact absurd he hna'
        · rw [if_neg h2] at he
          obtain ⟨l₁, l₂, hdec, hl₁, hacc'⟩ := ih (acc ++ [y]) e he hna'
          refine ⟨y :: l₁, l₂, by simp [hdec], ?_, fun a ha => hacc' a (by simp [ha])⟩
          intro x hx
          rcases List.mem_cons.mp hx with rfl | hx
          · exact hacc' x (by simp)
          · exact hl₁ x hx
    · -- y was skipped: some collected entry already has its left
      obtain ⟨a0, ha0, ha0l⟩ : ∃ a0, a0 ∈ acc ∧ a0.left = y.left := by
        obtain ⟨a0, ha0, h⟩ := List.any_eq_true.mp h1
        exact ⟨a0, ha0, by simpa using h⟩
      by_cases h2 : cc ≤ acc.length
      · rw [if_pos h2] at he
        exact absurd he hna
      · rw [if_neg h2] at he
        obtain ⟨l₁, l₂, hdec, hl₁, hacc⟩ := ih acc e he hna
        refine ⟨y :: l₁, l₂, by simp [hdec], ?_, hacc⟩
        intro x hx
        rcases List.mem_cons.mp hx with rfl | hx
        · rw [← ha0l]
          exact hacc a0 ha0
        · exact hl₁ x hx

lemma scanCols_cons_ne_nil (cc : Nat) (y : Entry) (rest : List Entry) :
    scanCols cc [] (y :: rest) ≠ [] := by
  simp only [scanCols, List.any_nil, Bool.false_eq_true, if_false, List.nil_append]
  by_cases h2 : cc ≤ 1
  · simp only [List.length_singleton, h2, if_true]
    simp
  · simp only [List.length_singleton, h2, if_false]
    intro hnil
    have := scanCols_length cc rest [y]
    rw [hnil] at this
    simp at this

/-- Claim C2 as amended: for every linear index `i ≥ columnCount` with
`columnCount > 1` and all entries below `i` resolved, the Position
Solver places item `i` on the candidate with the smallest `bottom`
among the `columnCount` most-recently-used distinct column positions
collected by the backward scan, at `top = bottom + rowSpacing`; when
several candidates have equal `bottom`, it chooses the one encountered
LAST in the backward scan (every candidate after the chosen one is
strictly taller). -/
theorem findNextPos_places_on_shortest_column (cfg : Config) (geo : Geometry)
    (items : List Entry) (index : Nat)
    (h1 : 1 < geo.column_count) (h2 : geo.column_count ≤ index) (h3 : index ≤ items.length) :
    ∃ e ∈ scanCols geo.column_count [] ((items.take index).reverse),
      findNextPos cfg geo items index
        = some { left := e.left, top := e.bottom + cfg.space.rows, column := e.column } ∧
      (∀ x ∈ scanCols geo.column_count [] ((items.take index).reverse), e.bottom ≤ x.bottom) ∧
      ∃ l₁ l₂, scanCols geo.column_count [] ((items.take index).reverse) = l₁ ++ e :: l₂ ∧
        ∀ x ∈ l₂, e.bottom < x.bottom := by
  have hnn : (items.take index).reverse ≠ [] := by
    simp only [ne_eq, List.reverse_eq_nil_iff, List.take_eq_nil_iff]
    rintro (h | h)
    · omega
    · rw [h] at h3
      simp at h3
      omega
  obtain ⟨y, rest, hyr⟩ : ∃ y rest, (items.take index).reverse = y :: rest := by
    cases hc : (items.take index).reverse with
    | nil => exact absurd hc hnn
    | cons y rest => exact ⟨y, rest, rfl⟩
  have hcne : scanCols geo.column_count [] ((items.take index).reverse) ≠ [] := by
    rw [hyr]
    exact scanCols_cons_ne_nil _ _ _
  obtain ⟨e, he⟩ : ∃ e, lastMin (scanCols geo.column_count [] ((items.take index).reverse))
      = some e := by
    cases hL : lastMin (scanCols geo.column_count [] ((items.take index).reverse)) with
    | none => exact absurd (lastMin_eq_none.mp hL) hcne
    | some e => exact ⟨e, rfl⟩
  obtain ⟨hmem, hmin, hdec⟩ := lastMin_spec _ e he
  refine ⟨e, hmem, ?_, hmin, hdec⟩
  unfold findNextPos
  rw [if_neg (by omega), if_pos h1, getLast?_sortDesc, he]

/-- Counterexample to claim C2 as stated: with two columns of equal
bottom, the backward scan encounters the column-1 entry first
(`scanCols` returns `[entB, entA]`), yet the solver places the new item
on `entA` (column 0) — the candidate encountered last — and not on the
first-encountered `entB`. -/
theorem findNextPos_tiebreak_not_first_encountered :
    scanCols geoTwo.column_count [] ((([entA, entB] : List Entry).take 2).reverse)
      = [entB, entA] ∧
    entB.bottom = entA.bottom ∧ entB.column ≠ entA.column ∧
    findNextPos cfgZero geoTwo [entA, entB] 2
      = some { left := entA.left, top := entA.bottom + cfgZero.space.rows,
               column := entA.column } ∧
    findNextPos cfgZero geoTwo [entA, entB] 2
      ≠ some { left := entB.left, top := entB.bottom + cfgZero.space.rows,
               column := entB.column } := by
  refine ⟨rfl, rfl, by decide, rfl, by decide⟩

/-- Witness for C2: the amended theorem applied to the two-column
configuration at index 2. -/
theorem findNextPos_places_on_shortest_column_witness :
    (1 < geoTwo.column_count ∧ geoTwo.column_count ≤ 2 ∧
      2 ≤ ([entA, entB] : List Entry).length) ∧
    ∃ e ∈ scanCols geoTwo.column_count [] ((([entA, entB] : List Entry).take 2).reverse),
      findNextPos cfgZero geoTwo [entA, entB] 2
        = some { left := e.left, top := e.bottom + cfgZero.space.rows, column := e.column } ∧
      (∀ x ∈ scanCols geoTwo.column_count [] ((([entA, entB] : List Entry).take 2).reverse),
        e.bottom ≤ x.bottom) ∧
      ∃ l₁ l₂, scanCols geoTwo.column_count [] ((([entA, entB] : List Entry).take 2).reverse)
          = l₁ ++ e :: l₂ ∧ ∀ x ∈ l₂, e.bottom < x.bottom :=
  ⟨⟨by decide, by decide, by decide⟩,
   findNextPos_places_on_shortest_column cfgZero geoTwo [entA, entB] 2
     (by decide) (by decide) (by decide)⟩

/-! ## C4: incremental recompute after delete -/

lemma recalcFromAux_take (cfg : Config) (geo : Geometry) :
    ∀ (fuel : Nat) (st : List Entry) (i : Nat) (l : List Entry),
      recalcFromAux cfg geo fuel st i = some l → l.take i = st.take i := by
  intro fuel
  induction fuel with
  | zero =>
    intro st i l h
    simp only [recalcFromAux] at h
    obtain rfl : st = l := by injection h
    rfl
  | succ fuel ih =>
    intro st i l h
    simp only [recalcFromAux] at h
    split at h
    · cases hn : findNextPos cfg geo st i with
      | none =>
        rw [hn] at h
        exact absurd h (by simp)
      | some nxt =>
        rw [hn] at h
        have h2 := ih _ _ _ h
        have h3 := congrArg (List.take i) h2
        have hmin : min i (i + 1) = i := Nat.min_eq_left (Nat.le_succ i)
        rw [List.take_take, List.take_take, hmin, List.set_take] at h3
        rwa [List.set_eq_of_length_le (by rw [List.length_take]; omega)] at h3
    · obtain rfl : st = l := by injection h
      rfl

lemma recalcFrom_take (cfg : Config) (geo : Geometry) (st : List Entry) (i : Nat)
    (l : List Entry) (h : recalcFrom cfg geo st i = some l) : l.take i = st.take i :=
  recalcFromAux_take cfg geo _ st i l h

lemma take_eraseIdx_self (l : List Entry) (k : Nat) : (l.eraseIdx k).take k = l.take k := by
  rw [List.eraseIdx_eq_take_drop_succ, List.take_append_eq_append_take, List.take_take,
      Nat.min_self]
  by_cases h : k ≤ l.length
  · rw [List.length_take, Nat.min_eq_left h]
    simp
  · rw [List.drop_eq_nil_of_le (by omega)]
    simp

/-- Claim C4: deleting the record at index `k < n` removes exactly that
record (the cache becomes the records below `k` followed by the records
above `k` shifted down one), decrements the bound index of every view
bound to an index greater than `k` and leaves views bound below `k`
alone, leaves the Layout Entries below `k` unchanged (layout is
recomputed from `k` forward only), and emits the delete notification
carrying exactly the removed record (the one-element splice result)
and its former index `k`. -/
theorem remove_frame_effect (cfg : Config) (geo : Geometry) (st : GridSt) (k : Nat)
    (its : List Entry)
    (hn : stateIsNormal st = true) (hk : k < st.cache.length)
    (hr : recalcFrom cfg geo (st.items.eraseIdx k) k = some its) :
    ((removeModel cfg geo st k).1.cache = st.cache.take k ++ st.cache.drop (k + 1)) ∧
    (∀ i, (hi : i < st.views.length) →
        ((k : Int) < st.views[i] →
            (removeModel cfg geo st k).1.views[i]? = some (st.views[i] - 1)) ∧
        (st.views[i] < (k : Int) →
            (removeModel cfg geo st k).1.views[i]? = some st.views[i])) ∧
    ((removeModel cfg geo st k).1.items.take k = st.items.take k) ∧
    ((removeModel cfg geo st k).2 = some ([st.cache[k]], k)) := by
  have hres : removeModel cfg geo st k =
      ({ st with cache := st.cache.eraseIdx k, items := its,
                 views := st.views.map (fun v =>
                   if (k : Int) < v then v - 1 else if v = (k : Int) then -1 else v),
                 gridState := .normal },
       some ((st.cache.drop k).take 1, k)) := by
    unfold removeModel
    rw [hn]
    simp only [Bool.not_true, Bool.false_eq_true, if_false, hr]
  rw [hres]
  refine ⟨?_, ?_, ?_, ?_⟩
  · simpa using List.eraseIdx_eq_take_drop_succ st.cache k
  · intro i hi
    constructor <;> intro hv <;>
      simp only [List.getElem?_map, List.getElem?_eq_getElem hi, Option.map_some',
        Option.some_inj]
    · rw [if_pos hv]
    · rw [if_neg (by omega), if_neg (by omega)]
  · simpa [recalcFrom_take cfg geo _ _ _ hr] using take_eraseIdx_self st.items k
  · show some ((st.cache.drop k).take 1, k) = some ([st.cache[k]], k)
    rw [List.drop_eq_getElem_cons hk]
    rfl

/-- Witness for C4: a concrete two-record, two-entry, three-view grid
with the middle machinery evaluated. -/
def stC4 : GridSt :=
  { gridState := .normal, ready := true, visible := true, inScroll := false,
    cache := [{ abi7height := some 20 }, { abi7height := some 30 }],
    items := [entA, entB],
    views := [0, 1] }

theorem remove_frame_effect_witness :
    (stateIsNormal stC4 = true ∧ 0 < stC4.cache.length ∧
      recalcFrom cfgZero geoTwo (stC4.items.eraseIdx 0) 0 = some [entA]) ∧
    (((removeModel cfgZero geoTwo stC4 0).1.cache
        = stC4.cache.take 0 ++ stC4.cache.drop 1) ∧
      (∀ i, (hi : i < stC4.views.length) →
        ((0 : Int) < stC4.views[i] →
            (removeModel cfgZero geoTwo stC4 0).1.views[i]? = some (stC4.views[i] - 1)) ∧
        (stC4.views[i] < (0 : Int) →
            (removeModel cfgZero geoTwo stC4 0).1.views[i]? = some stC4.views[i])) ∧
      ((removeModel cfgZero geoTwo stC4 0).1.items.take 0 = stC4.items.take 0) ∧
      ((removeModel cfgZero geoTwo stC4 0).2 = some ([stC4.cache[0]], 0))) :=
  ⟨⟨rfl, by decide, by decide⟩,
   remove_frame_effect cfgZero geoTwo stC4 0 [entA] rfl (by decide) (by decide)⟩

/-! ## C6: refresh idempotence -/

lemma recalcStorageBuild_length (cfg : Config) (geo : Geometry) (cache : List Record) :
    ∀ (n : Nat) (l : List Entry), recalcStorageBuild cfg geo cache n = some l →
      l.length = n := by
  intro n
  induction n with
  | zero =>
    intro l h
    simp only [recalcStorageBuild] at h
    obtain rfl : ([] : List Entry) = l := by injection h
    rfl
  | succ n ih =>
    intro l h
    unfold recalcStorageBuild at h
    split at h
    · exact absurd h (by simp)
    · rename_i st hst
      split at h
      · exact absurd h (by simp)
      · rename_i r hr
        split at h
        · exact absurd h (by simp)
        · rename_i p hp
          split at h
          · exact absurd h (by simp)
          · rename_i hgt hh
            have h2 := Option.some_inj.mp h
            rw [← h2]
            simp [ih st hst]

lemma refreshModel_of_normal (cfg : Config) (width_full : Int) (st : GridSt)
    (hn : stateIsNormal st = true) :
    refreshModel cfg width_full st =
      match recalcStorageItems cfg (initSizingParams cfg width_full) st.cache
          st.items.length with
      | some l => { st with items := l, gridState := .normal }
      | none => { st with gridState := .build } := by
  unfold refreshModel
  rw [hn]
  simp only [Bool.not_true, Bool.false_eq_true, if_false]

/-- Claim C6: calling refresh twice in succession, with no change to
the cached records, the configuration, or the container geometry in
between, produces identical Layout Entries after each call.  The first
refresh is assumed to settle back to `Normal` (its rebuild completed);
the second run then recomputes exactly the same entries. -/
theorem refresh_idempotent (cfg : Config) (width_full : Int) (st : GridSt)
    (hn : stateIsNormal st = true)
    (hs : (refreshModel cfg width_full st).gridState = GState.normal) :
    (refreshModel cfg width_full (refreshModel cfg width_full st)).items
      = (refreshModel cfg width_full st).items := by
  have hflags : isNormalState st.gridState = true ∧ st.ready = true ∧ st.visible = true ∧
      st.inScroll = false := by
    unfold stateIsNormal stateIsNormalOpts at hn
    simp only [Bool.and_eq_true, Bool.not_true, Bool.false_or, Bool.not_eq_true'] at hn
    exact ⟨hn.1.1.1, hn.1.1.2, hn.1.2, hn.2⟩
  rw [refreshModel_of_normal cfg width_full st hn] at hs ⊢
  cases hrec : recalcStorageItems cfg (initSizingParams cfg width_full) st.cache
      st.items.length with
  | none =>
    rw [hrec] at hs
    exact absurd hs (by simp)
  | some l =>
    rw [hrec] at hs
    have hlen : l.length = if st.items.length = 0 then st.cache.length else st.items.length := by
      unfold recalcStorageItems at hrec
      exact recalcStorageBuild_length cfg _ st.cache _ l hrec
    have hsn1 : stateIsNormal { st with items := l, gridState := GState.normal } = true := by
      unfold stateIsNormal stateIsNormalOpts isNormalState
      simp [hflags.2.1, hflags.2.2.1, hflags.2.2.2]
    show (refreshModel cfg width_full { st with items := l, gridState := GState.normal }).items
      = l
    rw [refreshModel_of_normal cfg width_full _ hsn1]
    have hcount : (if l.length = 0 then st.cache.length else l.length)
        = if st.items.length = 0 then st.cache.length else st.items.length := by
      rw [hlen]
      by_cases h0 : st.items.length = 0 <;> by_cases hc0 : st.cache.length = 0 <;>
        simp [h0, hc0]
    have hrec2 : recalcStorageItems cfg (initSizingParams cfg width_full)
        ({ st with items := l, gridState := GState.normal } : GridSt).cache
        ({ st with items := l, gridState := GState.normal } : GridSt).items.length
        = some l := by
      show recalcStorageItems cfg (initSizingParams cfg width_full) st.cache l.length = some l
      unfold recalcStorageItems at hrec ⊢
      rw [hcount]
      exact hrec
    rw [hrec2]

/-- Witness for C6: refreshing an empty, settled grid twice. -/
theorem refresh_idempotent_witness :
    (stateIsNormal stNormal = true ∧
      (refreshModel {} 100 stNormal).gridState = GState.normal) ∧
    (refreshModel {} 100 (refreshModel {} 100 stNormal)).items
      = (refreshModel {} 100 stNormal).items :=
  ⟨⟨rfl, by decide⟩, refresh_idempotent {} 100 stNormal rfl (by decide)⟩

/-! ## C3: the layout invariants of a full storage rebuild -/

lemma truthy_eq_some {o : Option Int} {x : Int} (h : truthy o = some x) :
    o = some x ∧ x ≠ 0 := by
  unfold truthy at h
  split at h
  · rename_i v
    split at h
    · exact absurd h (by simp)
    · rename_i hv
      obtain rfl : v = x := by injection h
      exact ⟨rfl, hv⟩
  · exact absurd h (by simp)

lemma posFilter_eq_some {o : Option Int} {x : Int} (h : posFilter o = some x) :
    o = some x ∧ 0 < x := by
  unfold posFilter at h
  split at h
  · rename_i v
    split at h
    · rename_i hv
      obtain rfl : v = x := by injection h
      exact ⟨rfl, hv⟩
    · exact absurd h (by simp)
  · exact absurd h (by simp)

lemma jsRound_nonneg {a b : Int} (ha : 0 < a) (hb : 0 < b) : 0 ≤ jsRound a b := by
  unfold jsRound
  exact Int.fdiv_nonneg (by omega) (by omega)

lemma resolveHeight_nonneg (cfg : Config) (geo : Geometry) (p : Pos) (r : Record) (h : Int)
    (hih : ∀ v, geo.item_height = some v → 0 < v)
    (hiw : 0 < geo.item_width)
    (hfc : ∀ f a rr, cfg.funcItemCalc = some f → 0 ≤ f a rr)
    (hres : resolveHeight cfg geo p r = some h) : 0 ≤ h := by
  unfold resolveHeight at hres
  split at hres
  · rename_i v hv
    obtain rfl : v = h := by injection hres
    obtain ⟨hv2, _⟩ := truthy_eq_some hv
    exact le_of_lt (hih _ hv2)
  · split at hres
    · rename_i rt hrt
      obtain rfl : jsRound geo.item_width rt = h := by injection hres
      exact jsRound_nonneg hiw (posFilter_eq_some hrt).2
    · split at hres
      · rename_i v hv
        obtain rfl : v = h := by injection hres
        exact le_of_lt (posFilter_eq_some hv).2
      · split at hres
        · rename_i f hf
          obtain rfl : _ = h := by injection hres
          exact hfc f _ r hf
        · exact absurd hres (by simp)

lemma reverse_decomp {l r₁ r₂ : List Entry} {e : Entry} (h : l.reverse = r₁ ++ e :: r₂) :
    l = r₂.reverse ++ e :: r₁.reverse := by
  have h2 := congrArg List.reverse h
  simpa using h2

/-- The inductive invariant of the storage rebuild: every built entry
satisfies `bottom = top + height` with a nonnegative height, lies in a
column below `columnCount` whose first-row left offset it carries,
first-row indices occupy their own column, and `top` values are
strictly increasing with index inside each column. -/
def EntryInv (cfg : Config) (geo : Geometry) (st : List Entry) : Prop :=
  ∀ k, (hk : k < st.length) →
    (st[k].bottom = st[k].top + st[k].height) ∧
    (0 ≤ st[k].height) ∧
    (st[k].column < geo.column_count) ∧
    (st[k].left = colLeft cfg geo st[k].column) ∧
    (k < geo.column_count → st[k].column = k) ∧
    (∀ j, (hj : j < k) → st[j].column = st[k].column → st[j].top < st[k].top)

lemma entryInv_append (cfg : Config) (geo : Geometry) (st : List Entry) (e : Entry)
    (hinv : EntryInv cfg geo st)
    (hb : e.bottom = e.top + e.height)
    (hh : 0 ≤ e.height)
    (hcol : e.column < geo.column_count)
    (hleft : e.left = colLeft cfg geo e.column)
    (hfr : st.length < geo.column_count → e.column = st.length)
    (hmono : ∀ j, (hj : j < st.length) → st[j].column = e.column → st[j].top < e.top) :
    EntryInv cfg geo (st ++ [e]) := by
  intro k hk
  rw [List.length_append, List.length_singleton] at hk
  by_cases hks : k < st.length
  · have h1 : (st ++ [e])[k] = st[k] := List.getElem_append_left hks
    obtain ⟨i1, i2, i3, i4, i5, i6⟩ := hinv k hks
    rw [h1]
    refine ⟨i1, i2, i3, i4, i5, ?_⟩
    intro j hj hc
    have h2 : (st ++ [e])[j] = st[j] := List.getElem_append_left (by omega)
    rw [h2] at hc ⊢
    exact i6 j hj hc
  · obtain rfl : k = st.length := by omega
    have h1 : (st ++ [e])[st.length] = e := by
      rw [List.getElem_append_right (le_refl _)]
      simp
    rw [h1]
    refine ⟨hb, hh, hcol, hleft, hfr, ?_⟩
    intro j hj hc
    have h2 : (st ++ [e])[j] = st[j] := List.getElem_append_left (by omega)
    rw [h2] at hc ⊢
    exact hmono j (by omega) hc

lemma getElem_append_middle (A B : List Entry) (e : Entry) (h : A.length < (A ++ e :: B).length) :
    (A ++ e :: B)[A.length] = e := by
  rw [List.getElem_append_right (le_refl _)]
  simp

lemma getElem_append_after (A B : List Entry) (e : Entry) (j : Nat)
    (hj : j < (A ++ e :: B).length) (hgt : A.length < j) : (A ++ e :: B)[j] ∈ B := by
  have h1 : (A ++ e :: B)[j]? = some ((A ++ e :: B)[j]) := List.getElem?_eq_getElem hj
  rw [List.getElem?_append_right (le_of_lt hgt)] at h1
  obtain ⟨m, hm⟩ : ∃ m, j - A.length = m + 1 := ⟨j - A.length - 1, by omega⟩
  rw [hm, List.getElem?_cons_succ] at h1
  obtain ⟨hb, hbe⟩ := List.getElem?_eq_some_iff.mp h1
  rw [← hbe]
  exact List.getElem_mem _

lemma findNextPos_branch2 (cfg : Config) (geo : Geometry) (st : List Entry) (p : Pos)
    (h1 : 1 < geo.column_count) (h2 : ¬ st.length < geo.column_count)
    (hp : findNextPos cfg geo st st.length = some p) :
    ∃ e A B, st = A ++ e :: B ∧ (∀ x ∈ B, x.left ≠ e.left) ∧
      p.left = e.left ∧ p.top = e.bottom + cfg.space.rows ∧ p.column = e.column := by
  unfold findNextPos at hp
  rw [if_neg h2, if_pos h1, List.take_length, getLast?_sortDesc] at hp
  cases hL : lastMin (scanCols geo.column_count [] st.reverse) with
  | none =>
    rw [hL] at hp
    exact absurd hp (by simp)
  | some e =>
    rw [hL] at hp
    have hp3 : some ({ left := e.left, top := e.bottom + cfg.space.rows, column := e.column } : Pos) = some p := hp
    have hp2 := Option.some_inj.mp hp3
    obtain ⟨hmem, _, _⟩ := lastMin_spec _ e hL
    obtain ⟨r₁, r₂, hrev, hr₁, _⟩ :=
      scanCols_firstOcc geo.column_count st.reverse [] e hmem (by simp)
    refine ⟨e, r₂.reverse, r₁.reverse, reverse_decomp hrev, ?_, ?_, ?_, ?_⟩
    · intro x hx
      exact hr₁ x (by simpa using hx)
    · rw [← hp2]
    · rw [← hp2]
    · rw [← hp2]

lemma findNextPos_branch3 (cfg : Config) (geo : Geometry) (st : List Entry) (p : Pos)
    (h1 : ¬ 1 < geo.column_count) (h2 : ¬ st.length < geo.column_count) (h3 : 0 < st.length)
    (hp : findNextPos cfg geo st st.length = some p) :
    ∃ tmp, (∃ htl : st.length - 1 < st.length, st[st.length - 1] = tmp) ∧
      p.left = tmp.left ∧ p.top = tmp.bottom + cfg.space.rows ∧ p.column = 0 := by
  unfold findNextPos at hp
  rw [if_neg h2, if_neg h1, if_pos h3] at hp
  cases hg : st.get? (st.length - 1) with
  | none =>
    rw [hg] at hp
    exact absurd hp (by simp)
  | some tmp =>
    rw [hg] at hp
    have hp3 : some ({ left := tmp.left, top := tmp.bottom + cfg.space.rows, column := 0 } : Pos) = some p := hp
    have hp2 := Option.some_inj.mp hp3
    rw [List.get?_eq_getElem?] at hg
    obtain ⟨hb, hbe⟩ := List.getElem?_eq_some_iff.mp hg
    refine ⟨tmp, ⟨hb, hbe⟩, ?_, ?_, ?_⟩
    · rw [← hp2]
    · rw [← hp2]
    · rw [← hp2]

/-- One placement step preserves the layout invariant: appending the
entry `{left: p.left, top: p.top, height, bottom: top + height,
column: p.column}` computed by `findNextPos` at the frontier index
`st.length` to an invariant-satisfying layout `st` keeps the invariant.
This is simultaneously the loop body of `recalcStorageItems`, of the
non-cached entry write of `loadData`
(`storage.items[cursor_pos] = {...}` at the dense frontier), and —
through the prefix — of the rewrite loop of `recalcItems`. -/
lemma entryInv_step (cfg : Config) (geo : Geometry) (st : List Entry) (p : Pos) (hgt : Int)
    (hcc : 0 < geo.column_count) (hrows : 0 < cfg.space.rows)
    (hinv : EntryInv cfg geo st)
    (hp : findNextPos cfg geo st st.length = some p)
    (hhn : 0 ≤ hgt) :
    EntryInv cfg geo
      (st ++ [{ left := p.left, top := p.top, height := hgt, bottom := p.top + hgt, column := p.column }]) := by
  by_cases hb1 : st.length < geo.column_count
  · -- first row: place in column `index`
    unfold findNextPos at hp
    rw [if_pos hb1] at hp
    have hp3 : some ({ left := colLeft cfg geo st.length, top := (cfg.padding.top - cfg.space.rows) + cfg.space.rows, column := st.length } : Pos) = some p := hp
    have hp2 := Option.some_inj.mp hp3
    have hpc : p.column = st.length := by rw [← hp2]
    have hpl : p.left = colLeft cfg geo st.length := by rw [← hp2]
    apply entryInv_append cfg geo st _ hinv rfl hhn
    · show p.column < geo.column_count
      rw [hpc]
      exact hb1
    · show p.left = colLeft cfg geo p.column
      rw [hpl, hpc]
    · intro _
      show p.column = st.length
      exact hpc
    · intro j hj hc
      exfalso
      have hc2 : st[j].column = p.column := hc
      rw [hpc] at hc2
      have h5 := (hinv j hj).2.2.2.2.1 (by omega)
      omega
  · by_cases hb2 : 1 < geo.column_count
    · -- masonry: stack on the most recent entry of the chosen column
      obtain ⟨e, A, B, hAB, hB, hpl, hpt, hpc⟩ :=
        findNextPos_branch2 cfg geo st p hb2 hb1 hp
      have hkE : A.length < st.length := by
        rw [hAB]
        simp
      have hmid : st[A.length] = e := by
        have h6 : st[A.length] = (A ++ e :: B)[A.length] := by
          congr 1
        rw [h6]
        exact getElem_append_middle A B e (by rw [← hAB]; exact hkE)
      obtain ⟨e1, e2, e3, e4, _, e6⟩ := hinv A.length hkE
      rw [hmid] at e1 e2 e3 e4 e6
      apply entryInv_append cfg geo st _ hinv rfl hhn
      · show p.column < geo.column_count
        rw [hpc]
        exact e3
      · show p.left = colLeft cfg geo p.column
        rw [hpl, hpc]
        exact e4
      · intro h0
        exact absurd h0 hb1
      · intro j hj hc
        have hc2 : st[j].column = p.column := hc
        rw [hpc] at hc2
        show st[j].top < p.top
        rw [hpt]
        have hjl : st[j].left = e.left := by
          rw [(hinv j hj).2.2.2.1, hc2, ← e4]
        rcases lt_trichotomy j A.length with hlt | heq | hgt2
        · have h7 := e6 j hlt hc2
          omega
        · subst heq
          rw [hmid]
          omega
        · exfalso
          have hjAB : j < (A ++ e :: B).length := by rw [← hAB]; exact hj
          have h8 : st[j] ∈ B := by
            have h9 : st[j] = (A ++ e :: B)[j] := by
              congr 1
            rw [h9]
            exact getElem_append_after A B e j hjAB hgt2
          exact hB st[j] h8 hjl
    · -- single column: stack under the previous entry
      have hcc1 : geo.column_count = 1 := by omega
      have hb3 : 0 < st.length := by omega
      obtain ⟨tmp, ⟨htl, htmp⟩, hpl, hpt, hpc⟩ :=
        findNextPos_branch3 cfg geo st p hb2 hb1 hb3 hp
      obtain ⟨t1, t2, t3, t4, _, t6⟩ := hinv (st.length - 1) htl
      rw [htmp] at t1 t2 t3 t4 t6
      have ht0 : tmp.column = 0 := by omega
      apply entryInv_append cfg geo st _ hinv rfl hhn
      · show p.column < geo.column_count
        rw [hpc]
        exact hcc
      · show p.left = colLeft cfg geo p.column
        rw [hpl, hpc, t4, ht0]
      · intro h0
        exact absurd h0 hb1
      · intro j hj hc
        have hc2 : st[j].column = p.column := hc
        rw [hpc] at hc2
        show st[j].top < p.top
        rw [hpt]
        by_cases hje : j = st.length - 1
        · subst hje
          rw [htmp]
          omega
        · have hj2 : j < st.length - 1 := by omega
          have hcj : st[j].column = tmp.column := by
            rw [hc2, ht0]
          have h7 := t6 j hj2 hcj
          omega

lemma recalcStorageBuild_inv (cfg : Config) (geo : Geometry) (cache : List Record)
    (hcc : 0 < geo.column_count) (hrows : 0 < cfg.space.rows)
    (hih : ∀ v, geo.item_height = some v → 0 < v)
    (hiw : 0 < geo.item_width)
    (hfc : ∀ f a rr, cfg.funcItemCalc = some f → 0 ≤ f a rr) :
    ∀ (n : Nat) (st : List Entry), recalcStorageBuild cfg geo cache n = some st →
      EntryInv cfg geo st := by
  intro n
  induction n with
  | zero =>
    intro st h
    unfold recalcStorageBuild at h
    obtain rfl : ([] : List Entry) = st := by injection h
    intro k hk
    simp at hk
  | succ n ih =>
    intro stl h
    unfold recalcStorageBuild at h
    split at h
    · exact absurd h (by simp)
    · rename_i st hst
      split at h
      · exact absurd h (by simp)
      · rename_i r hr
        split at h
        · exact absurd h (by simp)
        · rename_i p hp
          split at h
          · exact absurd h (by simp)
          · rename_i hgt hh
            have hstl := Option.some_inj.mp h
            rw [← hstl]
            have hlen : st.length = n := recalcStorageBuild_length cfg geo cache n st hst
            rw [← hlen] at hp
            exact entryInv_step cfg geo st p hgt hcc hrows (ih st hst) hp
              (resolveHeight_nonneg cfg geo p r hgt hih hiw hfc hh)

lemma entryInv_take (cfg : Config) (geo : Geometry) (st : List Entry) (n : Nat)
    (h : EntryInv cfg geo st) : EntryInv cfg geo (st.take n) := by
  intro k hk
  have hk2 : k < st.length := by
    rw [List.length_take] at hk
    omega
  have he : (st.take n)[k] = st[k] := List.getElem_take st
  rw [he]
  obtain ⟨i1, i2, i3, i4, i5, i6⟩ := h k hk2
  refine ⟨i1, i2, i3, i4, i5, ?_⟩
  intro j hj hc
  have hej : (st.take n)[j] = st[j] := List.getElem_take st
  rw [hej] at hc ⊢
  exact i6 j hj hc

/-- `findNextPos` reads only the entries below its index: the scan runs
over `(items.take index).reverse` and the single-column branch reads
`items[index - 1]`. -/
lemma findNextPos_take (cfg : Config) (geo : Geometry) (items : List Entry) (i : Nat) :
    findNextPos cfg geo (items.take i) i = findNextPos cfg geo items i := by
  by_cases hi0 : i = 0
  · subst hi0
    unfold findNextPos
    rcases Nat.eq_zero_or_pos geo.column_count with hcc0 | hccp
    · rw [hcc0]
      simp
    · rw [if_pos hccp, if_pos hccp]
  · have hg : (items.take i).get? (i - 1) = items.get? (i - 1) := by
      rw [List.get?_eq_getElem?, List.get?_eq_getElem?,
          List.getElem?_take_of_lt (by omega : i - 1 < i)]
    unfold findNextPos
    rw [List.take_take, Nat.min_self, hg]

lemma set_take_succ (l : List Entry) (i : Nat) (x : Entry) (h : i < l.length) :
    (l.set i x).take (i + 1) = l.take i ++ [x] := by
  rw [List.set_eq_take_append_cons_drop, if_pos h, List.take_append_eq_append_take,
      List.take_take]
  have h1 : min (i + 1) i = i := by omega
  have h2 : (List.take i l).length = i := by
    rw [List.length_take]
    omega
  rw [h1, h2]
  have h3 : i + 1 - i = 1 := by omega
  rw [h3]
  simp

/-- The rewrite loop of `recalcItems` preserves the layout invariant:
if the entries below the start position form an invariant-satisfying
layout and every preserved height is nonnegative, the rewritten array
satisfies the invariant in full. -/
lemma recalcFromAux_inv (cfg : Config) (geo : Geometry)
    (hcc : 0 < geo.column_count) (hrows : 0 < cfg.space.rows) :
    ∀ (fuel : Nat) (cur : List Entry) (i : Nat) (l : List Entry),
      cur.length - i ≤ fuel →
      EntryInv cfg geo (cur.take i) →
      (∀ j, (hj : j < cur.length) → i ≤ j → 0 ≤ cur[j].height) →
      recalcFromAux cfg geo fuel cur i = some l →
      EntryInv cfg geo l := by
  intro fuel
  induction fuel with
  | zero =>
    intro cur i l hfe hpre hhts h
    simp only [recalcFromAux] at h
    obtain rfl : cur = l := by injection h
    have hle : cur.length ≤ i := by omega
    rwa [List.take_of_length_le hle] at hpre
  | succ fuel ih =>
    intro cur i l hfe hpre hhts h
    simp only [recalcFromAux] at h
    split at h
    · rename_i hlt
      cases hp : findNextPos cfg geo cur i with
      | none =>
        rw [hp] at h
        exact absurd h (by simp)
      | some nxt =>
        rw [hp] at h
        have hlen : (cur.take i).length = i := by
          rw [List.length_take]
          omega
        have hp2 : findNextPos cfg geo (cur.take i) ((cur.take i).length) = some nxt := by
          rw [hlen, findNextPos_take cfg geo cur i]
          exact hp
        have hstep := entryInv_step cfg geo (cur.take i) nxt (cur[i].height) hcc hrows
          hpre hp2 (hhts i hlt (le_refl i))
        apply ih _ (i + 1) l ?_ ?_ ?_ h
        · rw [List.length_set]
          omega
        · rw [set_take_succ cur i _ hlt, hlen] at *
          exact hstep
        · intro j hj hij
          rw [List.length_set] at hj
          rw [List.getElem_set_ne (by omega : i ≠ j)]
          exact hhts j hj (by omega)
    · obtain rfl : cur = l := by injection h
      rename_i hnlt
      have hle : cur.length ≤ i := by omega
      rwa [List.take_of_length_le hle] at hpre

lemma recalcFrom_inv (cfg : Config) (geo : Geometry)
    (hcc : 0 < geo.column_count) (hrows : 0 < cfg.space.rows)
    (st : List Entry) (pos : Nat) (l : List Entry)
    (hpre : EntryInv cfg geo (st.take pos))
    (hhts : ∀ e ∈ st, 0 ≤ e.height)
    (h : recalcFrom cfg geo st pos = some l) : EntryInv cfg geo l := by
  apply recalcFromAux_inv cfg geo hcc hrows (st.length - pos) st pos l (le_refl _) hpre ?_ h
  intro j hj _
  exact hhts _ (List.getElem_mem hj)

/-- Claim C3: after any settled (non-`Building`) state, for every valid
configuration (at least one column, positive row spacing, positive item
width, height sources yielding only nonnegative heights), every Layout
Entry in storage satisfies `bottom = top + height` and within each
column the `top` values are strictly increasing with index.  Settled
layouts are produced by the operations below, each shown to
(re-)establish the layout invariant `EntryInv`, whose clauses include
the two claimed properties (final conjunct):
first, the full rebuild `recalcStorageItems` (the refresh and data-load
paths); second, the non-cached entry write of `loadData` at the dense
frontier (`storage.items[cursor_pos] = {left, top, height,
bottom: top + height, column}` with `new_pos = findNextPos()` at
`cursor_pos = storage.items.length`); third, the partial recompute
`recalcItems` (`recalcFrom`) from any position whose untouched prefix
is a settled layout with nonnegative preserved heights; fourth, the
delete path (`remove`): the same recompute after splicing index `k` out
of a settled layout. -/
theorem recalcStorage_layout_invariants (cfg : Config) (geo : Geometry)
    (hcc : 0 < geo.column_count) (hrows : 0 < cfg.space.rows)
    (hih : ∀ v, geo.item_height = some v → 0 < v)
    (hiw : 0 < geo.item_width)
    (hfc : ∀ f a rr, cfg.funcItemCalc = some f → 0 ≤ f a rr) :
    (∀ (cache : List Record) (count : Nat) (items : List Entry),
        recalcStorageItems cfg geo cache count = some items → EntryInv cfg geo items) ∧
    (∀ (st : List Entry) (p : Pos) (hgt : Int),
        EntryInv cfg geo st → findNextPos cfg geo st st.length = some p → 0 ≤ hgt →
        EntryInv cfg geo
          (st ++ [{ left := p.left, top := p.top, height := hgt, bottom := p.top + hgt, column := p.column }])) ∧
    (∀ (st : List Entry) (pos : Nat) (l : List Entry),
        EntryInv cfg geo (st.take pos) → (∀ e ∈ st, 0 ≤ e.height) →
        recalcFrom cfg geo st pos = some l → EntryInv cfg geo l) ∧
    (∀ (st : List Entry) (k : Nat) (l : List Entry),
        EntryInv cfg geo st → (∀ e ∈ st, 0 ≤ e.height) →
        recalcFrom cfg geo (st.eraseIdx k) k = some l → EntryInv cfg geo l) ∧
    (∀ (items : List Entry), EntryInv cfg geo items →
        (∀ e ∈ items, e.bottom = e.top + e.height) ∧
        (∀ i j, (hi : i < items.length) → (hj : j < items.length) → i < j →
          items[i].column = items[j].column → items[i].top < items[j].top)) := by
  refine ⟨?_, ?_, ?_, ?_, ?_⟩
  · intro cache count items hres
    unfold recalcStorageItems at hres
    exact recalcStorageBuild_inv cfg geo cache hcc hrows hih hiw hfc _ items hres
  · intro st p hgt hinv hp hhn
    exact entryInv_step cfg geo st p hgt hcc hrows hinv hp hhn
  · intro st pos l hpre hhts h
    exact recalcFrom_inv cfg geo hcc hrows st pos l hpre hhts h
  · intro st k l hinv hhts h
    apply recalcFrom_inv cfg geo hcc hrows _ k l ?_ ?_ h
    · rw [take_eraseIdx_self]
      exact entryInv_take cfg geo st k hinv
    · intro e he
      exact hhts e (List.Sublist.mem he (List.eraseIdx_sublist st k))
  · intro items hinv
    constructor
    · intro e he
      obtain ⟨i, hi, hie⟩ := List.mem_iff_getElem.mp he
      rw [← hie]
      exact (hinv i hi).1
    · intro i j hi hj hij hcol
      exact (hinv j hj).2.2.2.2.2 i hij hcol

/-- A two-column geometry with hint-driven heights, used by the C3
witness. -/
def geoC3 : Geometry := { column_count := 2, item_width := 100 }

/-- Witness for C3: the invariant-preservation theorem applied to the
concrete two-column configuration. -/
theorem recalcStorage_layout_invariants_witness :
    ((0 < geoC3.column_count) ∧ (0 < cfgZero.space.rows) ∧
      (∀ v, geoC3.item_height = some v → 0 < v) ∧ (0 < geoC3.item_width) ∧
      (∀ f a rr, cfgZero.funcItemCalc = some f → 0 ≤ f a rr)) ∧
    ((∀ (cache : List Record) (count : Nat) (items : List Entry),
        recalcStorageItems cfgZero geoC3 cache count = some items →
        EntryInv cfgZero geoC3 items) ∧
    (∀ (st : List Entry) (p : Pos) (hgt : Int),
        EntryInv cfgZero geoC3 st → findNextPos cfgZero geoC3 st st.length = some p →
        0 ≤ hgt →
        EntryInv cfgZero geoC3
          (st ++ [{ left := p.left, top := p.top, height := hgt, bottom := p.top + hgt, column := p.column }])) ∧
    (∀ (st : List Entry) (pos : Nat) (l : List Entry),
        EntryInv cfgZero geoC3 (st.take pos) → (∀ e ∈ st, 0 ≤ e.height) →
        recalcFrom cfgZero geoC3 st pos = some l → EntryInv cfgZero geoC3 l) ∧
    (∀ (st : List Entry) (k : Nat) (l : List Entry),
        EntryInv cfgZero geoC3 st → (∀ e ∈ st, 0 ≤ e.height) →
        recalcFrom cfgZero geoC3 (st.eraseIdx k) k = some l → EntryInv cfgZero geoC3 l) ∧
    (∀ (items : List Entry), EntryInv cfgZero geoC3 items →
        (∀ e ∈ items, e.bottom = e.top + e.height) ∧
        (∀ i j, (hi : i < items.length) → (hj : j < items.length) → i < j →
          items[i].column = items[j].column → items[i].top < items[j].top))) :=
  ⟨⟨by decide, by decide, by simp [geoC3], by decide, by simp [cfgZero]⟩,
   recalcStorage_layout_invariants cfgZero geoC3 (by decide) (by decide)
     (by simp [geoC3]) (by decide) (by simp [cfgZero])⟩

end A7
